import Mathlib

/-!
Verification of the plus package-repository server core against its
specification.  The definitions below are shallow embeddings of the Go
source files (pkg/storage/local/local.go, pkg/storage/factory.go,
pkg/repo/{rpm,deb,files}, internal/service, internal/utils).  External
OS and library behaviour (filesystem syscalls, gzip, XML decoding,
createrepo) is modelled by explicit environment structures; everything
the repository's own code does is translated function by function.
-/

namespace Plus

/-! ## String helpers: models of Go strings / path/filepath functions -/
/-- Character-list helper: pat is an initial run of l (Go
    strings.HasPrefix on char lists). -/
def leadsChars : List Char → List Char → Bool
  | [], _ => true
  | _ :: _, [] => false
  | a :: as, b :: bs => a == b && leadsChars as bs

/-- Model of Go strings.HasSuffix. -/
def strEndsWith (s suf : String) : Bool :=
  leadsChars suf.data.reverse s.data.reverse

/-- Model of Go strings.HasPrefix. -/
def strStartsWith (s pre : String) : Bool :=
  leadsChars pre.data s.data

/-- Substring containment on char lists (Go strings.Contains). -/
def containsChars (pat : List Char) : List Char → Bool
  | [] => leadsChars pat []
  | c :: rest => leadsChars pat (c :: rest) || containsChars pat rest

/-- Model of Go strings.Contains. -/
def strContains (s pat : String) : Bool :=
  containsChars pat.data s.data

/-- ASCII lower-casing of one character (the fragment of Go
    strings.ToLower the repository relies on: all compared suffixes are
    ASCII). -/
def toLowerChar (c : Char) : Char :=
  if 'A' ≤ c && c ≤ 'Z' then Char.ofNat (c.toNat + 32) else c

/-- Model of Go strings.ToLower restricted to ASCII case mapping. -/
def strToLower (s : String) : String :=
  ⟨s.data.map toLowerChar⟩

/-- Split a char list at every '/' (Go strings.Split(s, "/")). -/
def splitSlashAux : List Char → List Char → List (List Char)
  | [], acc => [acc.reverse]
  | c :: rest, acc =>
    if c = '/' then acc.reverse :: splitSlashAux rest []
    else splitSlashAux rest (c :: acc)

/-- Model of Go strings.Split(name, "/"). -/
def splitSlash (s : String) : List String :=
  (splitSlashAux s.data []).map (fun l => ⟨l⟩)

/-- Model of Go filepath.Base for the clean, slash-separated,
    non-trailing-slash paths the repository passes to it. -/
def baseName (s : String) : String :=
  match (splitSlash s).getLast? with
  | some last => if last.data = [] then "." else last
  | none => "."

/-- Model of Go filepath.Join for two already-clean components, as used
    throughout the repository. -/
def pathJoin (a b : String) : String :=
  if a.data = [] then b else if b.data = [] then a else a ++ "/" ++ b

/-! ## Repository-name validation (internal/utils IsValidRepoName) -/
/-- Character class of the name regex letters, digits, underscore, slash, hyphen. -/
def isRepoNameChar (c : Char) : Bool :=
  ('a' ≤ c && c ≤ 'z') || ('A' ≤ c && c ≤ 'Z') || ('0' ≤ c && c ≤ '9') ||
    c == '_' || c == '/' || c == '-'

/-- Character class of the segment regex letters, digits, underscore, hyphen. -/
def isSegmentChar (c : Char) : Bool :=
  ('a' ≤ c && c ≤ 'z') || ('A' ≤ c && c ≤ 'Z') || ('0' ≤ c && c ≤ '9') ||
    c == '_' || c == '-'

/-- Translation of utils.IsValidRepoName.  Go regexp MatchString of the
    anchored pattern letters, digits, underscore, slash, hyphen (one or more) is a nonempty all-chars-in-class
    check; len(name) is the byte length, which coincides with the
    character count whenever the (ASCII-only) regex matched.  The Go
    early-return chain is flattened into one conjunction. -/
def IsValidRepoName (name : String) : Bool :=
  (!name.data.isEmpty && name.data.all isRepoNameChar) &&
  !(decide (name.data.length = 0)) && !(decide (name.data.length > 256)) &&
  !(strStartsWith name "/") && !(strEndsWith name "/") &&
  !(strContains name "//") &&
  (splitSlash name).all (fun seg =>
    !(decide (seg.data.length = 0)) && !(decide (seg.data.length > 50)) &&
    (!seg.data.isEmpty && seg.data.all isSegmentChar))

/-- A string matches the anchored regex built from the character class
    p:  it is nonempty and every character satisfies p. -/
def MatchesClassPlus (p : Char → Bool) (s : String) : Prop :=
  s.data ≠ [] ∧ ∀ c ∈ s.data, p c = true

/-- The validity rule as the specification states it: name matches
    letters, digits, underscore, slash, hyphen (one or more), has length 1..256, does not start or end with '/',
    contains no "//", and every '/'-delimited segment is 1..50 chars
    matching letters, digits, underscore, hyphen (one or more). -/
def IsValidRepoNameSpec (name : String) : Prop :=
  MatchesClassPlus isRepoNameChar name ∧
  1 ≤ name.data.length ∧ name.data.length ≤ 256 ∧
  strStartsWith name "/" = false ∧ strEndsWith name "/" = false ∧
  strContains name "//" = false ∧
  ∀ seg ∈ splitSlash name,
    1 ≤ seg.data.length ∧ seg.data.length ≤ 50 ∧ MatchesClassPlus isSegmentChar seg

/-! ## Repo Service (internal/service RepoService, with pkg/repo types)

The service holds one Repo instance per type (`repos`, whose key set and
iteration order are modelled by `SvcEnv.order`) and a name-to-type memo
(`repoTypes`).  The behaviour of the underlying Repo instances that the
service merely invokes (ListRepos scans of the storage tree, directory
creation, recursive deletion) is modelled by the environment functions
of `SvcEnv`; everything the service itself does is translated from
src/unnamed/part_004 (second RepoService version). -/
inductive RepoType where
  | rpm
  | deb
  | files
deriving DecidableEq

/-- The string form of a RepoType (the RepoType constants in pkg/repo). -/
def typeStr : RepoType → String
  | .rpm => "rpm"
  | .deb => "deb"
  | .files => "files"

/-- The switch on strings.ToLower(repoTypeStr) in CreateRepo/SetRepoType. -/
def parseRepoType (s : String) : Option RepoType :=
  if strToLower s = "rpm" then some .rpm
  else if strToLower s = "deb" then some .deb
  else if strToLower s = "files" then some .files
  else none

/-- The name-to-type memo `repoTypes map[string]RepoType`, as an
    association list. -/
abbrev Memo := List (String × RepoType)

def memoLookup : Memo → String → Option RepoType
  | [], _ => none
  | (k, v) :: rest, n => if k = n then some v else memoLookup rest n

def memoInsert : Memo → String → RepoType → Memo
  | [], n, t => [(n, t)]
  | (k, v) :: rest, n, t =>
    if k = n then (k, t) :: rest else (k, v) :: memoInsert rest n t

def memoErase : Memo → String → Memo
  | [], _ => []
  | (k, v) :: rest, n =>
    if k = n then memoErase rest n else (k, v) :: memoErase rest n

/-- Environment of the service: the registered Repo instances (key set
    of `s.repos` in iteration order) and the outcomes of the repo-level
    calls the service delegates to. -/
structure SvcEnv where
  order : List RepoType
  listRepos : RepoType → Option (List String)
  createOk : RepoType → String → Bool
  deleteOk : RepoType → String → Bool

/-- The loop body of RepoService.inferRepoType: scan the registered
    repos in iteration order, skip listing errors, return the first
    type whose ListRepos result contains the name. -/
def inferRepoTypeGo (env : SvcEnv) (n : String) : List RepoType → Option RepoType
  | [] => none
  | t :: ts =>
    match env.listRepos t with
    | none => inferRepoTypeGo env n ts
    | some l => if n ∈ l then some t else inferRepoTypeGo env n ts

/-- Translation of RepoService.inferRepoType. -/
def inferRepoType (env : SvcEnv) (n : String) : Option RepoType :=
  inferRepoTypeGo env n env.order

inductive SvcErr where
  | notFound (repoName : String)
  | noHandler (t : RepoType)
  | unsupportedType (s : String)
  | invalidFileType (t : RepoType)
  | repoFailed (msg : String)
deriving DecidableEq

/-- Translation of RepoService.getRepoInstance: memo hit dispatches
    directly; a miss infers the type (memoizing it before the handler
    lookup); an uninferable name yields the cannot-infer NotFound
    error with the memo unchanged. -/
def getRepoInstance (env : SvcEnv) (m : Memo) (n : String) :
    Except SvcErr RepoType × Memo :=
  match memoLookup m n with
  | some t =>
    if t ∈ env.order then (.ok t, m) else (.error (.noHandler t), m)
  | none =>
    match inferRepoType env n with
    | none => (.error (.notFound n), m)
    | some t =>
      if t ∈ env.order then (.ok t, memoInsert m n t)
      else (.error (.noHandler t), memoInsert m n t)

/-- Storage content, path to byte list (LocalStorage.Store is modelled
    as an always-succeeding overwrite-insert; rejected uploads never
    reach it). -/
abbrev Store := List (String × List Nat)

def storeLookup : Store → String → Option (List Nat)
  | [], _ => none
  | (k, v) :: rest, n => if k = n then some v else storeLookup rest n

def storeInsert : Store → String → List Nat → Store
  | [], n, d => [(n, d)]
  | (k, v) :: rest, n, d =>
    if k = n then (k, d) :: rest else (k, v) :: storeInsert rest n d

/-- storage.Delete(repoName) = os.RemoveAll: drop the path and its
    subtree. -/
def storeDeleteTree (st : Store) (n : String) : Store :=
  st.filter (fun kv => !(kv.1 == n || strStartsWith kv.1 (n ++ "/")))

/-- Translation of RPMRepo.UploadPackage: reject filenames without the
    (case-sensitive) .rpm suffix, otherwise store under
    repoName/Packages/filename. -/
def rpmUploadPackage (repoName filename : String) (data : List Nat) (st : Store) :
    Except String Store :=
  if !(strEndsWith filename ".rpm") then .error "invalid file type, expected .rpm"
  else .ok (storeInsert st (pathJoin (pathJoin repoName "Packages") filename) data)

/-- Translation of DEBRepo.UploadPackage. -/
def debUploadPackage (repoName filename : String) (data : List Nat) (st : Store) :
    Except String Store :=
  if !(strEndsWith filename ".deb") then .error "invalid file type, expected .deb"
  else .ok (storeInsert st (pathJoin repoName filename) data)

/-- Translation of FilesRepo.UploadPackage: accepts anything. -/
def filesUploadPackage (repoName filename : String) (data : List Nat) (st : Store) :
    Except String Store :=
  .ok (storeInsert st (pathJoin repoName filename) data)

def repoUploadPackage : RepoType → String → String → List Nat → Store → Except String Store
  | .rpm => rpmUploadPackage
  | .deb => debUploadPackage
  | .files => filesUploadPackage

/-- Translation of RepoService.validateFileType (lower-cases the
    filename before the suffix check). -/
def validateFileType (filename : String) (t : RepoType) : Except SvcErr Unit :=
  match t with
  | .rpm =>
    if !(strEndsWith (strToLower filename) ".rpm") then .error (.invalidFileType .rpm)
    else .ok ()
  | .deb =>
    if !(strEndsWith (strToLower filename) ".deb") then .error (.invalidFileType .deb)
    else .ok ()
  | .files => .ok ()

structure SvcState where
  repoTypes : Memo
  store : Store
deriving DecidableEq

/-- Translation of RepoService.UploadPackage: resolve the repo instance
    (this is the only memo effect), validate the extension in the
    service layer, then delegate to the repo instance's own upload. -/
def svcUploadPackage (env : SvcEnv) (st : SvcState) (n f : String) (data : List Nat) :
    Except SvcErr Unit × SvcState :=
  match getRepoInstance env st.repoTypes n with
  | (.error e, m2) => (.error e, { st with repoTypes := m2 })
  | (.ok t, m2) =>
    match validateFileType f t with
    | .error e => (.error e, { st with repoTypes := m2 })
    | .ok _ =>
      match repoUploadPackage t n f data st.store with
      | .error msg => (.error (.repoFailed msg), { st with repoTypes := m2 })
      | .ok store2 => (.ok (), { repoTypes := m2, store := store2 })

/-- Translation of RepoService.CreateRepo: parse the type string,
    require a registered handler, create via the repo instance and only
    then memoize (unconditionally overwriting) the type. -/
def svcCreateRepo (env : SvcEnv) (st : SvcState) (n ts : String) :
    Except SvcErr Unit × SvcState :=
  match parseRepoType ts with
  | none => (.error (.unsupportedType ts), st)
  | some t =>
    if t ∈ env.order then
      if env.createOk t n then
        (.ok (), { st with repoTypes := memoInsert st.repoTypes n t })
      else (.error (.repoFailed "create repo failed"), st)
    else (.error (.noHandler t), st)

/-- Translation of RepoService.DeleteRepo: resolve the instance, then
    on successful delete evict the memo entry. -/
def svcDeleteRepo (env : SvcEnv) (st : SvcState) (n : String) :
    Except SvcErr Unit × SvcState :=
  match getRepoInstance env st.repoTypes n with
  | (.error e, m2) => (.error e, { st with repoTypes := m2 })
  | (.ok t, m2) =>
    if env.deleteOk t n then
      (.ok (), { repoTypes := memoErase m2 n, store := storeDeleteTree st.store n })
    else (.error (.repoFailed "delete repo failed"), { st with repoTypes := m2 })

/-- Inner loop of RepoService.ListRepos over one type's listing: add
    each name to the result set and back-fill the memo only when the
    name is not already memoized. -/
def listReposAdd (t : RepoType) : List String → List String × Memo → List String × Memo
  | [], acc => acc
  | x :: xs, (names, m) =>
    listReposAdd t xs
      (if x ∈ names then names else names ++ [x],
       match memoLookup m x with
       | some _ => m
       | none => memoInsert m x t)

/-- Outer loop of RepoService.ListRepos over the registered types
    (listing errors are skipped). -/
def svcListReposGo (env : SvcEnv) : List RepoType → List String × Memo → List String × Memo
  | [], acc => acc
  | t :: ts, acc =>
    match env.listRepos t with
    | none => svcListReposGo env ts acc
    | some l => svcListReposGo env ts (listReposAdd t l acc)

/-- Translation of RepoService.ListRepos. -/
def svcListRepos (env : SvcEnv) (m : Memo) : List String × Memo :=
  svcListReposGo env env.order ([], m)

/-- Translation of RepoService.GetRepoType. -/
def svcGetRepoType (env : SvcEnv) (m : Memo) (n : String) :
    Except SvcErr String × Memo :=
  match memoLookup m n with
  | some t => (.ok (typeStr t), m)
  | none =>
    match inferRepoType env n with
    | some t => (.ok (typeStr t), memoInsert m n t)
    | none => (.error (.notFound n), m)

/-- Translation of RepoService.SetRepoType. -/
def svcSetRepoType (env : SvcEnv) (st : SvcState) (n ts : String) :
    Except SvcErr Unit × SvcState :=
  match parseRepoType ts with
  | none => (.error (.unsupportedType ts), st)
  | some t => (.ok (), { st with repoTypes := memoInsert st.repoTypes n t })

/-- Memo effect shared by every read-style service operation that
    resolves the repo instance first (DownloadPackage, RefreshMetadata,
    GetMetadata, ListPackages, GetPackageChecksum, GetRepoInfo). -/
def svcTouch (env : SvcEnv) (st : SvcState) (n : String) : SvcState :=
  { st with repoTypes := (getRepoInstance env st.repoTypes n).2 }

/-- The public service operations (internal/service RepoService). -/
inductive SvcOp where
  | upload (repoName filename : String) (data : List Nat)
  | download (repoName filename : String)
  | downloadFiles (repoName filename : String)
  | refreshMetadata (repoName : String)
  | getMetadata (repoName filename : String)
  | listPackages (repoName : String)
  | createRepo (repoName tstr : String)
  | deleteRepo (repoName : String)
  | listRepos
  | getRepoType (repoName : String)
  | setRepoType (repoName tstr : String)
  | getPackageChecksum (repoName filename : String)
  | getRepoInfo (repoName : String)

/-- State effect of one service operation. -/
def applyOp (env : SvcEnv) (st : SvcState) : SvcOp → SvcState
  | .upload n f data => (svcUploadPackage env st n f data).2
  | .download n _ => svcTouch env st n
  | .downloadFiles _ _ => st
  | .refreshMetadata n => svcTouch env st n
  | .getMetadata n _ => svcTouch env st n
  | .listPackages n => svcTouch env st n
  | .createRepo n ts => (svcCreateRepo env st n ts).2
  | .deleteRepo n => (svcDeleteRepo env st n).2
  | .listRepos => { st with repoTypes := (svcListRepos env st.repoTypes).2 }
  | .getRepoType n => { st with repoTypes := (svcGetRepoType env st.repoTypes n).2 }
  | .setRepoType n ts => (svcSetRepoType env st n ts).2
  | .getPackageChecksum n _ => svcTouch env st n
  | .getRepoInfo n => svcTouch env st n

def applyOps (env : SvcEnv) (st : SvcState) (ops : List SvcOp) : SvcState :=
  ops.foldl (applyOp env) st

/-- The operations that explicitly write the memo entry of a given
    name: CreateRepo, DeleteRepo and SetRepoType on that name. -/
def opSetsType (n : String) : SvcOp → Bool
  | .createRepo m _ => m == n
  | .deleteRepo m => m == n
  | .setRepoType m _ => m == n
  | _ => false

/-- A registered repo instance reports owning the name. -/
def reportsRepo (env : SvcEnv) (t : RepoType) (n : String) : Prop :=
  ∃ l, env.listRepos t = some l ∧ n ∈ l

def c2Env : SvcEnv :=
  ⟨[.rpm, .deb, .files], fun _ => some [], fun _ _ => true, fun _ _ => true⟩

def c2St : SvcState := ⟨[("r", .files)], []⟩

def c4Env : SvcEnv :=
  ⟨[.rpm, .files], fun t => if t = .files then some ["x"] else some [],
   fun _ _ => true, fun _ _ => true⟩

def c5Env : SvcEnv :=
  ⟨[.rpm, .files], fun _ => some ["r"], fun _ _ => true, fun _ _ => true⟩

def c8Env : SvcEnv :=
  ⟨[.rpm, .deb, .files], fun _ => some [], fun _ _ => true, fun _ _ => true⟩

def c8St : SvcState := ⟨[("repo", .rpm)], []⟩

/-! ## RPM repo GetPackageChecksum (pkg/repo/rpm)

The storage listing of the repodata directory and the composite
Get-then-gunzip-then-XML-decode of a primary metadata file are
environment operations (`RepoMetaEnv`); the selection of the latest
primary file and the package search are translated from
RPMRepo.GetPackageChecksum / findLatestPrimaryXMLFile. -/
structure MetaFileEntry where
  name : String
  modTime : Nat
deriving DecidableEq

structure RpmPkg where
  locationHref : String
  checksumType : String
  checksumValue : String
deriving DecidableEq

structure RpmMetadata where
  packages : List RpmPkg
deriving DecidableEq

structure RepoMetaEnv where
  list : String → Option (List MetaFileEntry)
  getMeta : String → Option RpmMetadata

inductive ChecksumErr where
  | invalidType
  | listFailed
  | noPrimary
  | readFailed
  | pkgNotFound
deriving DecidableEq

/-- strings.HasSuffix(filepath.Base(file.Name), "-primary.xml.gz"). -/
def isPrimaryMetaName (n : String) : Bool :=
  strEndsWith (baseName n) "-primary.xml.gz"

/-- The latest-by-ModTime loop of findLatestPrimaryXMLFile (the first
    file wins ties, later files replace only on strictly later
    ModTime). -/
def pickLatest (f0 : MetaFileEntry) : List MetaFileEntry → MetaFileEntry
  | [] => f0
  | f :: fs => pickLatest (if f.modTime > f0.modTime then f else f0) fs

/-- Translation of RPMRepo.findLatestPrimaryXMLFile. -/
def findLatestPrimaryXMLFile (env : RepoMetaEnv) (repoName : String) :
    Except ChecksumErr String :=
  match env.list (pathJoin repoName "repodata") with
  | none => .error .listFailed
  | some files =>
    match files.filter (fun f => isPrimaryMetaName f.name) with
    | [] => .error .noPrimary
    | f0 :: rest => .ok (baseName (pickLatest f0 rest).name)

/-- The package-search loop of GetPackageChecksum: first entry whose
    location href basename equals the target and whose checksum type is
    sha256; matching entries of other checksum types are skipped. -/
def findChecksumGo : List RpmPkg → String → Option String
  | [], _ => none
  | p :: ps, target =>
    if baseName p.locationHref = target then
      if p.checksumType = "sha256" then some p.checksumValue
      else findChecksumGo ps target
    else findChecksumGo ps target

/-- Translation of RPMRepo.GetPackageChecksum. -/
def rpmGetPackageChecksum (env : RepoMetaEnv) (repoName filename : String) :
    Except ChecksumErr String :=
  if !(strEndsWith filename ".rpm") then .error .invalidType
  else
    match findLatestPrimaryXMLFile env repoName with
    | .error e => .error e
    | .ok primaryFile =>
      match env.getMeta (pathJoin (pathJoin repoName "repodata") primaryFile) with
      | none => .error .readFailed
      | some md =>
        match findChecksumGo md.packages (baseName filename) with
        | some c => .ok c
        | none => .error .pkgNotFound

def c3Md : RpmMetadata :=
  ⟨[⟨"Packages/bar-2.0.rpm", "sha1", "feed"⟩,
    ⟨"Packages/foo-1.0.rpm", "sha256", "cafe"⟩]⟩

def c3Env : RepoMetaEnv :=
  ⟨fun p => if p = "repo/repodata" then
      some [⟨"old-primary.xml.gz", 3⟩, ⟨"new-primary.xml.gz", 5⟩, ⟨"repomd.xml", 9⟩]
    else some [],
   fun p => if p = "repo/repodata/new-primary.xml.gz" then some c3Md else none⟩

/-! ## Storage factory (pkg/storage/factory.go)

The registry maps a storage type tag to a constructor plus free-form
labels; constructors are environment functions that may fail (the
object-store constructor can), returning an abstract storage descriptor
on success. -/
structure StorageEntry where
  stype : String
  labels : List String
  make : String → Except String String

abbrev StorageRegistry := List StorageEntry

/-- Translation of storage.Register: the first registration of a
    storage type wins, duplicates are silently ignored. -/
def storageRegister (reg : StorageRegistry) (st : String)
    (mk : String → Except String String) (labels : List String) : StorageRegistry :=
  if reg.any (fun e => e.stype == st) then reg
  else reg ++ [⟨st, labels, mk⟩]

/-- The label scan of CreateByLable (first matching entry wins). -/
def findByLabel : StorageRegistry → String → Option StorageEntry
  | [], _ => none
  | e :: rest, label => if label ∈ e.labels then some e else findByLabel rest label

/-- The factory[Local] lookup. -/
def findByType : StorageRegistry → String → Option StorageEntry
  | [], _ => none
  | e :: rest, st => if e.stype = st then some e else findByType rest st

/-- Translation of storage.CreateByLable: construct via the first
    constructor whose labels contain the label; with no match, fall
    back to the registered "local" type; fail only when that is absent
    too. -/
def CreateByLable (reg : StorageRegistry) (path label : String) : Except String String :=
  match findByLabel reg label with
  | some e => e.make path
  | none =>
    match findByType reg "local" with
    | some e => e.make path
    | none => .error "label and storage not fount"

def demoRegistry : StorageRegistry :=
  storageRegister
    (storageRegister [] "local" (fun p => .ok ("local:" ++ p)) ["rpm", "deb"])
    "s3" (fun p => .ok ("s3:" ++ p)) ["files"]

/-! ## Files repo CreateRepo / ListRepos (pkg/repo/files)

Directory creation and marker-store outcomes are environment flags; the
directory entries that the ListRepos walk sees (IsDir entries of
ListWithOptions) are given by the environment, the marker file contents
live in the modelled text store. -/
structure FilesDirEntry where
  name : String
  isRepo : Bool

structure FilesEnv where
  createDirOk : String → Bool
  storeOk : String → Bool
  dirs : List FilesDirEntry

abbrev TextStore := List (String × String)

def textLookup : TextStore → String → Option String
  | [], _ => none
  | (k, v) :: rest, n => if k = n then some v else textLookup rest n

def textInsert : TextStore → String → String → TextStore
  | [], n, d => [(n, d)]
  | (k, v) :: rest, n, d =>
    if k = n then (k, d) :: rest else (k, v) :: textInsert rest n d

def isSpaceChar (c : Char) : Bool :=
  c == ' ' || c == '\t' || c == '\n' || c == '\r'

/-- Model of Go strings.TrimSpace (ASCII whitespace). -/
def strTrimSpace (s : String) : String :=
  ⟨((s.data.dropWhile isSpaceChar).reverse.dropWhile isSpaceChar).reverse⟩

/-- Translation of FilesRepo.CreateRepo: a directory-creation failure
    is returned; a failure to write the .repo-type marker is logged and
    discarded, so the call still reports success. -/
def filesCreateRepo (env : FilesEnv) (store : TextStore) (repoName : String) :
    Except String TextStore :=
  if !(env.createDirOk repoName) then
    .error "failed to create Files repository directory"
  else
    if env.storeOk (pathJoin repoName ".repo-type") then
      .ok (textInsert store (pathJoin repoName ".repo-type") "files")
    else
      .ok store

/-- Translation of FilesRepo.hasRepoTypeMarker. -/
def hasRepoTypeMarker (store : TextStore) (dirPath expected : String) : Bool :=
  match textLookup store (pathJoin dirPath ".repo-type") with
  | none => false
  | some content => strTrimSpace content == expected

/-- Translation of the FilesRepo.ListRepos loop: a directory is
    reported when the storage marked it IsRepo or when it carries a
    "files" .repo-type marker; the repoSet map is modelled as a
    deduplicated list. -/
def filesListReposGo (store : TextStore) : List FilesDirEntry → List String → List String
  | [], acc => acc
  | d :: ds, acc =>
    if d.isRepo || hasRepoTypeMarker store d.name "files" then
      filesListReposGo store ds (if d.name ∈ acc then acc else acc ++ [d.name])
    else filesListReposGo store ds acc

def filesListRepos (env : FilesEnv) (store : TextStore) : List String :=
  filesListReposGo store env.dirs []

def c9Env : FilesEnv :=
  ⟨fun _ => true, fun _ => false, [⟨"blob", false⟩]⟩

/-! ## Local storage backend (pkg/storage/local/local.go)

The OS filesystem is modelled as a tree of nodes whose symlink targets
are absolute component paths; symlinks sit at final path components
(the shape all the backend's call sites exercise).  os.Lstat is path
lookup without following a final symlink, filepath.EvalSymlinks chases
final symlinks up to the OS loop bound, os.Stat/os.Open follow them.
Get, Exists, ListWithOptions and isRepoDirectory are translated from
the second (current) version of local.go on top of these primitives. -/
mutual
inductive FSNode where
  | file (content : List Nat)
  | dir (entries : FSEntries)
  | symlink (target : List String)

inductive FSEntries where
  | nil
  | cons (name : String) (node : FSNode) (rest : FSEntries)
end

def entriesOf : List (String × FSNode) → FSEntries
  | [] => .nil
  | (k, v) :: rest => .cons k v (entriesOf rest)

def findFSEntry : FSEntries → String → Option FSNode
  | .nil, _ => none
  | .cons k v rest, c => if k = c then some v else findFSEntry rest c

/-- Path lookup without following a symlink at the final component
    (os.Lstat); intermediate components must be real directories. -/
def lookupNode : FSNode → List String → Option FSNode
  | n, [] => some n
  | FSNode.dir es, c :: cs =>
    match findFSEntry es c with
    | some child => lookupNode child cs
    | none => none
  | _, _ :: _ => none

/-- Symlink chasing with the OS's loop bound. -/
def resolveLink (root : FSNode) : Nat → List String → Option (List String)
  | 0, _ => none
  | fuel + 1, p =>
    match lookupNode root p with
    | some (FSNode.symlink t) => resolveLink root fuel t
    | some _ => some p
    | none => none

/-- filepath.EvalSymlinks. -/
def evalSymlinks (root : FSNode) (p : List String) : Option (List String) :=
  resolveLink root 40 p

/-- os.Stat: resolve symlinks, then look the real path up. -/
def osStat (root : FSNode) (p : List String) : Option FSNode :=
  match evalSymlinks root p with
  | some rp => lookupNode root rp
  | none => none

/-- os.Open succeeds on any existing (resolved) file or directory. -/
def osOpen (root : FSNode) (p : List String) : Option FSNode :=
  osStat root p

/-- Translation of LocalStorage.Get: open the joined path directly
    (os.Open follows symlinks wherever they point); on failure try
    EvalSymlinks and open the resolved path; otherwise the not-found
    open error stands. -/
def localGet (root : FSNode) (base p : List String) : Option FSNode :=
  match osOpen root (base ++ p) with
  | some h => some h
  | none =>
    match evalSymlinks root (base ++ p) with
    | some rp => osOpen root rp
    | none => none

/-- Translation of LocalStorage.Exists: os.Stat on the joined path;
    both the broken-symlink case and the plain missing case are
    reported as (false, nil), every other case as (true, nil). -/
def localExists (root : FSNode) (base p : List String) : Bool :=
  (osStat root (base ++ p)).isSome

def isDirNode : FSNode → Bool
  | FSNode.dir _ => true
  | _ => false

/-- filepath.Glob(Packages/*.rpm) produced at least one match. -/
def anyEntryRpm : FSEntries → Bool
  | .nil => false
  | .cons k _ rest => strEndsWith k ".rpm" || anyEntryRpm rest

/-- Translation of LocalStorage.isRepoDirectory (current version):
    resolve a possible symlink, then check repodata/repomd.xml, then
    repodata, then a Packages directory containing a *.rpm glob
    match. -/
def isRepoDirectory (root : FSNode) (dirPath : List String) : Bool :=
  let realDirPath :=
    match evalSymlinks root dirPath with
    | some rp => rp
    | none => dirPath
  if (osStat root (realDirPath ++ ["repodata", "repomd.xml"])).isSome then true
  else if (osStat root (realDirPath ++ ["repodata"])).isSome then true
  else
    match osStat root (realDirPath ++ ["Packages"]) with
    | some (FSNode.dir es) => anyEntryRpm es
    | _ => false

structure ListOptions where
  maxDepth : Int
  includeDirs : Bool
  extensions : List String

structure FileInfo where
  name : List String
  size : Nat
  isDir : Bool
  isRepo : Bool
deriving DecidableEq

def fileExtAux : List Char → List Char → Option (List Char)
  | [], _ => none
  | c :: rest, acc =>
    if c = '.' then some ('.' :: acc) else fileExtAux rest (c :: acc)

/-- filepath.Ext: the suffix starting at the final dot, "" without
    one. -/
def fileExt (s : String) : String :=
  match fileExtAux s.data.reverse [] with
  | some l => ⟨l⟩
  | none => ""

/-- Size reported by FileInfo (directories report 0 in the model). -/
def nodeSize : FSNode → Nat
  | FSNode.file c => c.length
  | _ => 0

inductive VisitResult where
  | skip
  | emit (fi : FileInfo)
  | skipDir

/-- One invocation of the WalkDir callback inside ListWithOptions:
    symlink entries are resolved (broken ones are skipped) and their
    DirEntry is replaced by the target's info, the MaxDepth check
    returns SkipDir past the limit on (resolved) directories, then
    directories are emitted under IncludeDirs with the isRepoDirectory
    flag and files pass the Extensions filter. -/
def visitEntry (root : FSNode) (walkRoot rel : List String) (entryName : String)
    (node : FSNode) (opts : ListOptions) : VisitResult :=
  let absPath := walkRoot ++ rel
  let resolved : Option (FSNode × String) :=
    match node with
    | FSNode.symlink _ =>
      match evalSymlinks root absPath with
      | none => none
      | some rp =>
        match lookupNode root rp with
        | none => none
        | some real =>
          some (real, match rp.getLast? with | some c => c | none => entryName)
    | _ => some (node, entryName)
  match resolved with
  | none => VisitResult.skip
  | some (d, dName) =>
    if opts.maxDepth ≥ 0 ∧ ((rel.length : Int) - 1 > opts.maxDepth) then
      (if isDirNode d then VisitResult.skipDir else VisitResult.skip)
    else
      if isDirNode d then
        (if opts.includeDirs then
          VisitResult.emit ⟨rel, 0, true, isRepoDirectory root absPath⟩
        else VisitResult.skip)
      else
        if opts.extensions.length > 0 then
          (if opts.extensions.any
              (fun ae => strToLower (fileExt dName) == strToLower ae) then
            VisitResult.emit ⟨rel, nodeSize d, false, false⟩
          else VisitResult.skip)
        else VisitResult.emit ⟨rel, nodeSize d, false, false⟩

/-- The WalkDir traversal (lexical order modelled as entry order):
    SkipDir on a real directory prunes its subtree; SkipDir reported
    while visiting a non-directory entry abandons the remaining entries
    of the containing directory, mirroring filepath.WalkDir. -/
def walkEntries (root : FSNode) (walkRoot : List String) (opts : ListOptions) :
    FSEntries → List String → List FileInfo
  | .nil, _ => []
  | .cons name child rest, relAcc =>
    match visitEntry root walkRoot (relAcc ++ [name]) name child opts, child with
    | VisitResult.skip, FSNode.dir es =>
      walkEntries root walkRoot opts es (relAcc ++ [name]) ++
        walkEntries root walkRoot opts rest relAcc
    | VisitResult.skip, _ => walkEntries root walkRoot opts rest relAcc
    | VisitResult.emit fi, FSNode.dir es =>
      fi :: (walkEntries root walkRoot opts es (relAcc ++ [name]) ++
        walkEntries root walkRoot opts rest relAcc)
    | VisitResult.emit fi, _ => fi :: walkEntries root walkRoot opts rest relAcc
    | VisitResult.skipDir, FSNode.dir _ => walkEntries root walkRoot opts rest relAcc
    | VisitResult.skipDir, _ => []

/-- Translation of LocalStorage.ListWithOptions: a nonexistent prefix
    (os.Stat says not-exist) yields an empty listing with nil error;
    an existing prefix is walked from its lstat root (WalkDir does not
    follow a symlinked walk root; the root itself is skipped by the
    callback).  The callback swallows every walk error, so the
    function's error result is always nil and is omitted here. -/
def localListWithOptions (root : FSNode) (base pfx : List String)
    (opts : ListOptions) : List FileInfo :=
  match osStat root (base ++ pfx) with
  | none => []
  | some _ =>
    match lookupNode root (base ++ pfx) with
    | some (FSNode.dir es) => walkEntries root (base ++ pfx) opts es []
    | _ => []

/-- Component-path containment, the check resolvePath would apply. -/
def leadsPath : List String → List String → Bool
  | [], _ => true
  | _ :: _, [] => false
  | a :: as, b :: bs => a == b && leadsPath as bs

def c1Root : FSNode :=
  FSNode.dir (entriesOf
    [("data", FSNode.dir (entriesOf
      [("evil", FSNode.symlink ["secret"]),
       ("dang", FSNode.symlink ["gone"])])),
     ("secret", FSNode.file [42])])

/-! ## Lemmas and claim theorems -/

theorem isEmptyChars_false_iff (l : List Char) : l.isEmpty = false ↔ l ≠ [] := by
  cases l <;> simp [List.isEmpty]

/-- Claim C7: the repository-name validator accepts a string iff it
    matches letters, digits, underscore, slash, hyphen (one or more), has length 1 to 256, does not start or end
    with '/', contains no "//", and every '/'-delimited segment is 1 to
    50 characters matching letters, digits, underscore, hyphen (one or more). -/
theorem c7_valid_repo_name_iff (name : String) :
    IsValidRepoName name = true ↔ IsValidRepoNameSpec name := by
  unfold IsValidRepoName IsValidRepoNameSpec MatchesClassPlus
  simp only [Bool.and_eq_true, Bool.not_eq_true', decide_eq_false_iff_not,
    List.all_eq_true, isEmptyChars_false_iff, ne_eq]
  constructor
  · rintro ⟨⟨⟨⟨⟨⟨⟨hne, hcls⟩, hlen0⟩, hlen256⟩, hstart⟩, hend⟩, hcont⟩, hsegs⟩
    refine ⟨⟨hne, hcls⟩, by omega, by omega, hstart, hend, hcont, ?_⟩
    intro seg hseg
    obtain ⟨⟨h0, h50⟩, hsne, hscls⟩ := hsegs seg hseg
    exact ⟨by omega, by omega, hsne, hscls⟩
  · rintro ⟨⟨hne, hcls⟩, h1, h256, hstart, hend, hcont, hsegs⟩
    refine ⟨⟨⟨⟨⟨⟨⟨hne, hcls⟩, by omega⟩, by omega⟩, hstart⟩, hend⟩, hcont⟩, ?_⟩
    intro seg hseg
    obtain ⟨hs1, hs50, hsne, hscls⟩ := hsegs seg hseg
    exact ⟨⟨by omega, by omega⟩, hsne, hscls⟩

/-! ### Memo bookkeeping lemmas -/
theorem memoLookup_insert (m : Memo) (k : String) (t : RepoType) (n : String) :
    memoLookup (memoInsert m k t) n =
      if k = n then some t else memoLookup m n := by
  induction m with
  | nil => simp [memoInsert, memoLookup]
  | cons kv rest ih =>
    obtain ⟨k2, v2⟩ := kv
    by_cases h2 : k2 = k
    · subst h2
      by_cases h3 : k2 = n <;> simp [memoInsert, memoLookup, h3]
    · by_cases h3 : k2 = n
      · subst h3
        have hk : ¬ k = k2 := fun h => h2 h.symm
        simp [memoInsert, memoLookup, h2, hk]
      · simp [memoInsert, memoLookup, h2, h3, ih]

theorem memoLookup_erase (m : Memo) (k n : String) :
    memoLookup (memoErase m k) n =
      if k = n then none else memoLookup m n := by
  induction m with
  | nil => simp [memoErase, memoLookup]
  | cons kv rest ih =>
    obtain ⟨k2, v2⟩ := kv
    by_cases h2 : k2 = k
    · subst h2
      simp only [memoErase, if_pos rfl, memoLookup]
      by_cases h3 : k2 = n
      · subst h3
        simp [ih]
      · simp [h3, ih]
    · simp only [memoErase, if_neg h2, memoLookup]
      by_cases h3 : k2 = n
      · subst h3
        have hk : ¬ k = k2 := fun h => h2 h.symm
        simp [hk]
      · simp [h3, ih]

/-- The inference scan only ever returns registered types. -/
theorem inferRepoTypeGo_mem (env : SvcEnv) (n : String) (os : List RepoType)
    (t : RepoType) (h : inferRepoTypeGo env n os = some t) : t ∈ os := by
  induction os with
  | nil => simp [inferRepoTypeGo] at h
  | cons t0 ts ih =>
    simp only [inferRepoTypeGo] at h
    cases hl : env.listRepos t0 with
    | none =>
      rw [hl] at h
      exact List.mem_cons_of_mem _ (ih h)
    | some l =>
      rw [hl] at h
      by_cases hm : n ∈ l
      · simp [hm] at h
        simp [h]
      · simp [hm] at h
        exact List.mem_cons_of_mem _ (ih h)

/-- Success of the inference scan splits the registered order into a
    non-reporting initial run followed by the reporting type. -/
theorem inferRepoTypeGo_first (env : SvcEnv) (n : String) (os : List RepoType)
    (t : RepoType) (h : inferRepoTypeGo env n os = some t) :
    ∃ pre post, os = pre ++ t :: post ∧ reportsRepo env t n ∧
      ∀ t2 ∈ pre, ¬ reportsRepo env t2 n := by
  induction os with
  | nil => simp [inferRepoTypeGo] at h
  | cons t0 ts ih =>
    simp only [inferRepoTypeGo] at h
    cases hl : env.listRepos t0 with
    | none =>
      rw [hl] at h
      obtain ⟨pre, post, hos, hrep, hpre⟩ := ih h
      refine ⟨t0 :: pre, post, by simp [hos], hrep, ?_⟩
      intro t2 ht2
      rcases List.mem_cons.mp ht2 with h2 | h2
      · subst h2
        rintro ⟨l, hl2, _⟩
        rw [hl] at hl2
        exact Option.noConfusion hl2
      · exact hpre t2 h2
    | some l =>
      rw [hl] at h
      by_cases hm : n ∈ l
      · simp only [if_pos hm, Option.some.injEq] at h
        subst h
        exact ⟨[], ts, rfl, ⟨l, hl, hm⟩, by simp⟩
      · simp only [if_neg hm] at h
        obtain ⟨pre, post, hos, hrep, hpre⟩ := ih h
        refine ⟨t0 :: pre, post, by simp [hos], hrep, ?_⟩
        intro t2 ht2
        rcases List.mem_cons.mp ht2 with h2 | h2
        · subst h2
          rintro ⟨l2, hl2, hm2⟩
          rw [hl] at hl2
          cases hl2
          exact hm hm2
        · exact hpre t2 h2

/-- If no registered repo reports the name, the inference scan fails. -/
theorem inferRepoTypeGo_none (env : SvcEnv) (n : String) (os : List RepoType)
    (h : ∀ t ∈ os, ¬ reportsRepo env t n) : inferRepoTypeGo env n os = none := by
  induction os with
  | nil => simp [inferRepoTypeGo]
  | cons t0 ts ih =>
    simp only [inferRepoTypeGo]
    cases hl : env.listRepos t0 with
    | none => exact ih (fun t ht => h t (List.mem_cons_of_mem _ ht))
    | some l =>
      have hm : ¬ n ∈ l := fun hm =>
        h t0 (List.mem_cons_self _ _) ⟨l, hl, hm⟩
      simp only [if_neg hm]
      exact ih (fun t ht => h t (List.mem_cons_of_mem _ ht))

/-- Resolving any name never disturbs an existing memo entry of another
    (or the same) name: once present, the entry survives
    getRepoInstance. -/
theorem getRepoInstance_preserves (env : SvcEnv) (m : Memo) (x n : String)
    (t : RepoType) (h : memoLookup m n = some t) :
    memoLookup (getRepoInstance env m x).2 n = some t := by
  unfold getRepoInstance
  cases hx : memoLookup m x with
  | some u =>
    by_cases hu : u ∈ env.order <;> simp [hu, h]
  | none =>
    have hxn : x ≠ n := by
      intro he
      rw [he, h] at hx
      exact Option.noConfusion hx
    cases hi : inferRepoType env x with
    | none => simpa using h
    | some u =>
      by_cases hu : u ∈ env.order <;>
        simp [hu, memoLookup_insert, hxn, h]

theorem listReposAdd_preserves (env : SvcEnv) (t0 : RepoType) (xs : List String)
    (names : List String) (m : Memo) (n : String) (t : RepoType)
    (h : memoLookup m n = some t) :
    memoLookup (listReposAdd t0 xs (names, m)).2 n = some t := by
  induction xs generalizing names m with
  | nil => simpa [listReposAdd] using h
  | cons x xs ih =>
    cases hm : memoLookup m x with
    | some u =>
      simp only [listReposAdd, hm]
      exact ih _ _ h
    | none =>
      have hx : x ≠ n := by
        intro he
        rw [he, h] at hm
        exact Option.noConfusion hm
      have h2 : memoLookup (memoInsert m x t0) n = some t := by
        rw [memoLookup_insert]
        simp [hx, h]
      simp only [listReposAdd, hm]
      exact ih _ _ h2

theorem svcListReposGo_preserves (env : SvcEnv) (os : List RepoType)
    (names : List String) (m : Memo) (n : String) (t : RepoType)
    (h : memoLookup m n = some t) :
    memoLookup (svcListReposGo env os (names, m)).2 n = some t := by
  induction os generalizing names m with
  | nil => simpa [svcListReposGo] using h
  | cons t0 ts ih =>
    simp only [svcListReposGo]
    cases hl : env.listRepos t0 with
    | none => exact ih _ _ h
    | some l =>
      have := listReposAdd_preserves env t0 l names m n t h
      obtain ⟨names2, m2⟩ := listReposAdd t0 l (names, m)
      exact ih _ _ this

theorem svcUploadPackage_repoTypes (env : SvcEnv) (st : SvcState)
    (x f : String) (d : List Nat) :
    (svcUploadPackage env st x f d).2.repoTypes =
      (getRepoInstance env st.repoTypes x).2 := by
  unfold svcUploadPackage
  rcases hg : getRepoInstance env st.repoTypes x with ⟨r, m2⟩
  rcases r with e | t
  · rfl
  · rcases hv : validateFileType f t with e | u
    · simp [hv]
    · rcases hr : repoUploadPackage t x f d st.store with msg | s2 <;> simp [hv, hr]

/-- One service operation that is not an explicit CreateRepo,
    DeleteRepo or SetRepoType on the name leaves that name's memo entry
    intact. -/
theorem applyOp_preserves_memo (env : SvcEnv) (st : SvcState) (n : String)
    (t : RepoType) (h : memoLookup st.repoTypes n = some t) (op : SvcOp)
    (hop : opSetsType n op = false) :
    memoLookup (applyOp env st op).repoTypes n = some t := by
  cases op with
  | upload x f d =>
    rw [applyOp, svcUploadPackage_repoTypes]
    exact getRepoInstance_preserves env _ x n t h
  | download x f => exact getRepoInstance_preserves env _ x n t h
  | downloadFiles x f => exact h
  | refreshMetadata x => exact getRepoInstance_preserves env _ x n t h
  | getMetadata x f => exact getRepoInstance_preserves env _ x n t h
  | listPackages x => exact getRepoInstance_preserves env _ x n t h
  | createRepo x ts =>
    have hx : x ≠ n := by simpa [opSetsType] using hop
    rw [applyOp]
    unfold svcCreateRepo
    cases parseRepoType ts with
    | none => exact h
    | some u =>
      by_cases hu : u ∈ env.order
      · by_cases hc : env.createOk u x <;>
          simp [hu, hc, memoLookup_insert, hx, h]
      · simp [hu, h]
  | deleteRepo x =>
    have hx : x ≠ n := by simpa [opSetsType] using hop
    have hpres := getRepoInstance_preserves env st.repoTypes x n t h
    rw [applyOp]
    unfold svcDeleteRepo
    rcases hg : getRepoInstance env st.repoTypes x with ⟨r, m2⟩
    rw [hg] at hpres
    rcases r with e | u
    · exact hpres
    · by_cases hd : env.deleteOk u x <;>
        simp [hd, memoLookup_erase, hx, hpres]
  | listRepos =>
    rw [applyOp]
    exact svcListReposGo_preserves env env.order [] st.repoTypes n t h
  | getRepoType x =>
    rw [applyOp]
    unfold svcGetRepoType
    cases hx : memoLookup st.repoTypes x with
    | some u => simpa using h
    | none =>
      have hxn : x ≠ n := by
        intro he
        rw [he, h] at hx
        exact Option.noConfusion hx
      cases hi : inferRepoType env x with
      | none => simpa using h
      | some u => simp [memoLookup_insert, hxn, h]
  | setRepoType x ts =>
    have hx : x ≠ n := by simpa [opSetsType] using hop
    rw [applyOp]
    unfold svcSetRepoType
    cases parseRepoType ts with
    | none => exact h
    | some u => simp [memoLookup_insert, hx, h]
  | getPackageChecksum x f => exact getRepoInstance_preserves env _ x n t h
  | getRepoInfo x => exact getRepoInstance_preserves env _ x n t h

/-- Claim C2 (amended): once the memo holds a type for a name, any
    sequence of service operations that contains no explicit
    CreateRepo, DeleteRepo or SetRepoType on that name leaves the memo
    entry unchanged, and GetRepoType keeps returning that same type
    string.  (The original claim omitted CreateRepo from the list of
    mutating operations; see the counterexample.) -/
theorem c2_memo_stable_amended (env : SvcEnv) (st : SvcState) (n : String)
    (t : RepoType) (ops : List SvcOp)
    (h : memoLookup st.repoTypes n = some t)
    (hops : ∀ op ∈ ops, opSetsType n op = false) :
    memoLookup (applyOps env st ops).repoTypes n = some t ∧
    (svcGetRepoType env (applyOps env st ops).repoTypes n).1 = .ok (typeStr t) := by
  have hmain : memoLookup (applyOps env st ops).repoTypes n = some t := by
    induction ops generalizing st with
    | nil => simpa [applyOps] using h
    | cons op ops ih =>
      have h1 := applyOp_preserves_memo env st n t h op
        (hops op (List.mem_cons_self _ _))
      simpa [applyOps] using
        ih (applyOp env st op) h1 (fun op2 hop2 => hops op2 (List.mem_cons_of_mem _ hop2))
  refine ⟨hmain, ?_⟩
  unfold svcGetRepoType
  rw [hmain]

/-- Claim C2 as stated is false: with the name "r" memoized as a Files
    repo, the explicit service operation CreateRepo("r", "rpm") — which
    is neither DeleteRepo nor SetRepoType — succeeds (directory
    creation is idempotent) and silently flips the memoized type, so a
    subsequent GetRepoType("r") returns "rpm" instead of "files". -/
theorem c2_claim_false_createRepo_flips_memo :
    memoLookup c2St.repoTypes "r" = some RepoType.files ∧
    opSetsType "r" (SvcOp.deleteRepo "r") = true ∧
    opSetsType "r" (SvcOp.setRepoType "r" "rpm") = true ∧
    opSetsType "r" (SvcOp.createRepo "r" "rpm") = true ∧
    (svcCreateRepo c2Env c2St "r" "rpm").1 = .ok () ∧
    (svcGetRepoType c2Env (applyOp c2Env c2St (SvcOp.createRepo "r" "rpm")).repoTypes "r").1
      = .ok "rpm" ∧
    ("rpm" : String) ≠ "files" := by
  refine ⟨rfl, rfl, rfl, rfl, rfl, ?_, by decide⟩
  rfl

/-- Witness for the amended C2 theorem at a concrete state: uploads,
    listings, reads and deletes of other names do not move the memo
    entry of "r". -/
theorem c2_memo_stable_amended_witness :
    memoLookup c2St.repoTypes "r" = some RepoType.files ∧
    (∀ op ∈ [SvcOp.upload "r" "a.bin" [1], SvcOp.listRepos, SvcOp.getRepoType "r",
        SvcOp.deleteRepo "q", SvcOp.refreshMetadata "r"], opSetsType "r" op = false) ∧
    memoLookup (applyOps c2Env c2St [SvcOp.upload "r" "a.bin" [1], SvcOp.listRepos,
        SvcOp.getRepoType "r", SvcOp.deleteRepo "q",
        SvcOp.refreshMetadata "r"]).repoTypes "r" = some RepoType.files := by
  refine ⟨rfl, by decide, ?_⟩
  exact (c2_memo_stable_amended c2Env c2St "r" RepoType.files _ rfl (by decide)).1

/-! ### C4: cold-lookup type inference -/
/-- Claim C4: for a name absent from the memo, getRepoInstance scans
    the registered repos, returns the first registered type whose
    ListRepos reports the name and memoizes it before returning; when
    no registered repo reports the name it fails with the
    cannot-infer NotFound error and leaves the memo unchanged. -/
theorem c4_infer_first_registered (env : SvcEnv) (m : Memo) (n : String)
    (habs : memoLookup m n = none) :
    (∀ t, inferRepoType env n = some t →
      getRepoInstance env m n = (.ok t, memoInsert m n t) ∧
      ∃ pre post, env.order = pre ++ t :: post ∧ reportsRepo env t n ∧
        ∀ t2 ∈ pre, ¬ reportsRepo env t2 n) ∧
    ((∀ t ∈ env.order, ¬ reportsRepo env t n) →
      getRepoInstance env m n = (.error (.notFound n), m)) := by
  constructor
  · intro t ht
    have hmem : t ∈ env.order := inferRepoTypeGo_mem env n env.order t ht
    refine ⟨?_, inferRepoTypeGo_first env n env.order t ht⟩
    unfold getRepoInstance
    rw [habs, ht]
    simp [hmem]
  · intro hnone
    have hinf : inferRepoType env n = none := inferRepoTypeGo_none env n env.order hnone
    unfold getRepoInstance
    rw [habs, hinf]

/-- Witness for C4 at a concrete environment: "x" is only reported by
    the Files repo, inference finds it and memoizes it. -/
theorem c4_infer_first_registered_witness :
    memoLookup ([] : Memo) "x" = none ∧
    getRepoInstance c4Env [] "x" = (.ok RepoType.files, [("x", RepoType.files)]) := by
  have hinf : inferRepoType c4Env "x" = some RepoType.files := by decide
  exact ⟨rfl, ((c4_infer_first_registered c4Env [] "x" rfl).1 RepoType.files hinf).1⟩

/-! ### C5: service-level ListRepos -/
theorem listReposAdd_memo (t0 : RepoType) (xs : List String)
    (names : List String) (m : Memo) (x : String) :
    memoLookup (listReposAdd t0 xs (names, m)).2 x =
      match memoLookup m x with
      | some u => some u
      | none => if x ∈ xs then some t0 else none := by
  induction xs generalizing names m with
  | nil => cases hx : memoLookup m x <;> simp [listReposAdd, hx]
  | cons y ys ih =>
    cases hm : memoLookup m y with
    | some u =>
      simp only [listReposAdd, hm]
      rw [ih]
      cases hx : memoLookup m x with
      | some v => rfl
      | none =>
        have hxy : x ≠ y := by
          intro he
          rw [he, hm] at hx
          exact Option.noConfusion hx
        simp [List.mem_cons, hxy]
    | none =>
      simp only [listReposAdd, hm]
      rw [ih]
      by_cases hxy : y = x
      · subst hxy
        rw [memoLookup_insert]
        simp only [if_pos rfl]
        rw [hm]
        simp
      · rw [memoLookup_insert, if_neg hxy]
        cases hx : memoLookup m x with
        | some v => rfl
        | none =>
          have : x ≠ y := fun h => hxy h.symm
          simp [List.mem_cons, this]

theorem svcListReposGo_cons_none (env : SvcEnv) (t0 : RepoType) (ts : List RepoType)
    (acc : List String × Memo) (hl : env.listRepos t0 = none) :
    svcListReposGo env (t0 :: ts) acc = svcListReposGo env ts acc := by
  simp only [svcListReposGo]
  rw [hl]

theorem svcListReposGo_cons_some (env : SvcEnv) (t0 : RepoType) (ts : List RepoType)
    (acc : List String × Memo) (l : List String) (hl : env.listRepos t0 = some l) :
    svcListReposGo env (t0 :: ts) acc =
      svcListReposGo env ts (listReposAdd t0 l acc) := by
  simp only [svcListReposGo]
  rw [hl]

theorem inferRepoTypeGo_cons_none (env : SvcEnv) (n : String) (t0 : RepoType)
    (ts : List RepoType) (hl : env.listRepos t0 = none) :
    inferRepoTypeGo env n (t0 :: ts) = inferRepoTypeGo env n ts := by
  simp only [inferRepoTypeGo]
  rw [hl]

theorem inferRepoTypeGo_cons_some (env : SvcEnv) (n : String) (t0 : RepoType)
    (ts : List RepoType) (l : List String) (hl : env.listRepos t0 = some l) :
    inferRepoTypeGo env n (t0 :: ts) =
      if n ∈ l then some t0 else inferRepoTypeGo env n ts := by
  simp only [inferRepoTypeGo]
  rw [hl]

theorem listReposAdd_pair (t0 : RepoType) (xs : List String)
    (names : List String) (m : Memo) :
    listReposAdd t0 xs (names, m) =
      ((listReposAdd t0 xs (names, m)).1, (listReposAdd t0 xs (names, m)).2) := rfl

theorem svcListReposGo_memo (env : SvcEnv) (os : List RepoType)
    (names : List String) (m : Memo) (x : String) :
    memoLookup (svcListReposGo env os (names, m)).2 x =
      match memoLookup m x with
      | some u => some u
      | none => inferRepoTypeGo env x os := by
  induction os generalizing names m with
  | nil => cases hx : memoLookup m x <;> simp [svcListReposGo, inferRepoTypeGo, hx]
  | cons t0 ts ih =>
    cases hl : env.listRepos t0 with
    | none =>
      rw [svcListReposGo_cons_none env t0 ts _ hl, inferRepoTypeGo_cons_none env x t0 ts hl]
      exact ih names m
    | some l =>
      rw [svcListReposGo_cons_some env t0 ts _ l hl,
        inferRepoTypeGo_cons_some env x t0 ts l hl,
        listReposAdd_pair t0 l names m,
        ih ((listReposAdd t0 l (names, m)).1) ((listReposAdd t0 l (names, m)).2),
        listReposAdd_memo t0 l names m x]
      cases hx : memoLookup m x with
      | some u => rfl
      | none =>
        by_cases hxl : x ∈ l
        · simp [hxl]
        · simp [hxl]

theorem listReposAdd_names (t0 : RepoType) (xs : List String)
    (names : List String) (m : Memo) (x : String) :
    x ∈ (listReposAdd t0 xs (names, m)).1 ↔ x ∈ names ∨ x ∈ xs := by
  induction xs generalizing names m with
  | nil => simp [listReposAdd]
  | cons y ys ih =>
    simp only [listReposAdd]
    by_cases hy : y ∈ names
    · rw [if_pos hy, ih]
      constructor
      · rintro (h | h)
        · exact Or.inl h
        · exact Or.inr (List.mem_cons_of_mem _ h)
      · rintro (h | h)
        · exact Or.inl h
        · rcases List.mem_cons.mp h with he | h2
          · exact Or.inl (by rw [he]; exact hy)
          · exact Or.inr h2
    · rw [if_neg hy, ih]
      simp only [List.mem_append, List.mem_singleton, List.mem_cons]
      tauto

theorem listReposAdd_nodup (t0 : RepoType) (xs : List String)
    (names : List String) (m : Memo) (h : names.Nodup) :
    (listReposAdd t0 xs (names, m)).1.Nodup := by
  induction xs generalizing names m with
  | nil => exact h
  | cons y ys ih =>
    simp only [listReposAdd]
    by_cases hy : y ∈ names
    · rw [if_pos hy]
      exact ih _ _ h
    · rw [if_neg hy]
      refine ih _ _ ?_
      rw [List.nodup_append]
      refine ⟨h, List.nodup_singleton y, ?_⟩
      intro a ha hb
      rw [List.mem_singleton] at hb
      subst hb
      exact hy ha

theorem svcListReposGo_names (env : SvcEnv) (os : List RepoType)
    (names : List String) (m : Memo) (x : String) :
    x ∈ (svcListReposGo env os (names, m)).1 ↔
      x ∈ names ∨ ∃ t ∈ os, ∃ l, env.listRepos t = some l ∧ x ∈ l := by
  induction os generalizing names m with
  | nil => simp [svcListReposGo]
  | cons t0 ts ih =>
    cases hl : env.listRepos t0 with
    | none =>
      rw [svcListReposGo_cons_none env t0 ts _ hl, ih]
      constructor
      · rintro (h | ⟨t, ht, l, hl2, hx⟩)
        · exact Or.inl h
        · exact Or.inr ⟨t, List.mem_cons_of_mem _ ht, l, hl2, hx⟩
      · rintro (h | ⟨t, ht, l, hl2, hx⟩)
        · exact Or.inl h
        · rcases List.mem_cons.mp ht with he | h2
          · subst he
            rw [hl] at hl2
            exact Option.noConfusion hl2
          · exact Or.inr ⟨t, h2, l, hl2, hx⟩
    | some l =>
      rw [svcListReposGo_cons_some env t0 ts _ l hl, listReposAdd_pair t0 l names m,
        ih ((listReposAdd t0 l (names, m)).1) ((listReposAdd t0 l (names, m)).2),
        listReposAdd_names t0 l names m x]
      constructor
      · rintro ((h | h) | ⟨t, ht, l2, hl2, hx⟩)
        · exact Or.inl h
        · exact Or.inr ⟨t0, List.mem_cons_self _ _, l, hl, h⟩
        · exact Or.inr ⟨t, List.mem_cons_of_mem _ ht, l2, hl2, hx⟩
      · rintro (h | ⟨t, ht, l2, hl2, hx⟩)
        · exact Or.inl (Or.inl h)
        · rcases List.mem_cons.mp ht with he | h2
          · subst he
            rw [hl] at hl2
            cases hl2
            exact Or.inl (Or.inr hx)
          · exact Or.inr ⟨t, h2, l2, hl2, hx⟩

theorem svcListReposGo_nodup (env : SvcEnv) (os : List RepoType)
    (names : List String) (m : Memo) (h : names.Nodup) :
    (svcListReposGo env os (names, m)).1.Nodup := by
  induction os generalizing names m with
  | nil => exact h
  | cons t0 ts ih =>
    cases hl : env.listRepos t0 with
    | none =>
      rw [svcListReposGo_cons_none env t0 ts _ hl]
      exact ih _ _ h
    | some l =>
      rw [svcListReposGo_cons_some env t0 ts _ l hl, listReposAdd_pair t0 l names m]
      exact ih ((listReposAdd t0 l (names, m)).1) ((listReposAdd t0 l (names, m)).2)
        (listReposAdd_nodup t0 l names m h)

/-- Claim C5 (amended): service-level ListRepos returns the
    deduplicated union of the names reported by every registered repo
    whose listing succeeds (each name exactly once), never disturbs
    already-memoized names, and back-fills each newly encountered name
    with the FIRST registered type (in iteration order) that reports it
    — i.e. exactly the type the inference scan would produce.  (The
    original claim said the last writer into the set wins the memo
    update; the code back-fills only absent entries, so the first
    writer wins — see the counterexample.) -/
theorem c5_listRepos_union_backfill (env : SvcEnv) (m : Memo) :
    (svcListRepos env m).1.Nodup ∧
    (∀ x, x ∈ (svcListRepos env m).1 ↔
      ∃ t ∈ env.order, ∃ l, env.listRepos t = some l ∧ x ∈ l) ∧
    (∀ x u, memoLookup m x = some u → memoLookup (svcListRepos env m).2 x = some u) ∧
    (∀ x, memoLookup m x = none →
      memoLookup (svcListRepos env m).2 x = inferRepoType env x) := by
  refine ⟨?_, ?_, ?_, ?_⟩
  · exact svcListReposGo_nodup env env.order [] m List.nodup_nil
  · intro x
    simpa using svcListReposGo_names env env.order [] m x
  · intro x u hu
    have := svcListReposGo_memo env env.order [] m x
    rw [hu] at this
    exact this
  · intro x hx
    have := svcListReposGo_memo env env.order [] m x
    rw [hx] at this
    exact this

/-- Claim C5 as stated is false: when both registered repos report the
    name "r" (iteration order rpm then files), the last writer into the
    set is the Files repo, yet the memo back-fill keeps the FIRST
    writer's type rpm, not files. -/
theorem c5_claim_false_memo_first_writer :
    c5Env.order = [RepoType.rpm, RepoType.files] ∧
    c5Env.listRepos RepoType.rpm = some ["r"] ∧
    c5Env.listRepos RepoType.files = some ["r"] ∧
    memoLookup ([] : Memo) "r" = none ∧
    (svcListRepos c5Env []).2 = [("r", RepoType.rpm)] ∧
    memoLookup (svcListRepos c5Env []).2 "r" ≠ some RepoType.files := by
  decide

/-- Witness for the amended C5 theorem at a concrete environment. -/
theorem c5_listRepos_union_backfill_witness :
    memoLookup ([] : Memo) "r" = none ∧
    memoLookup (svcListRepos c5Env []).2 "r" = inferRepoType c5Env "r" ∧
    memoLookup ([("q", RepoType.deb)] : Memo) "q" = some RepoType.deb ∧
    memoLookup (svcListRepos c5Env [("q", RepoType.deb)]).2 "q" = some RepoType.deb ∧
    ("r" ∈ (svcListRepos c5Env []).1 ↔
      ∃ t ∈ c5Env.order, ∃ l, c5Env.listRepos t = some l ∧ "r" ∈ l) := by
  refine ⟨rfl, ?_, rfl, ?_, ?_⟩
  · exact (c5_listRepos_union_backfill c5Env []).2.2.2 "r" rfl
  · exact (c5_listRepos_union_backfill c5Env [("q", RepoType.deb)]).2.2.1 "q"
      RepoType.deb rfl
  · exact (c5_listRepos_union_backfill c5Env []).2.1 "r"

/-! ### C8: RPM upload extension gate -/
theorem leadsChars_map (g : Char → Char) (p : List Char) :
    ∀ l, leadsChars p l = true → leadsChars (p.map g) (l.map g) = true := by
  induction p with
  | nil => intro l _; simp [leadsChars]
  | cons a as ih =>
    intro l h
    cases l with
    | nil => simp [leadsChars] at h
    | cons b bs =>
      simp only [leadsChars, Bool.and_eq_true, beq_iff_eq] at h
      obtain ⟨hab, hrest⟩ := h
      subst hab
      simp only [List.map_cons, leadsChars, Bool.and_eq_true, beq_iff_eq]
      exact ⟨by simp, ih bs hrest⟩

theorem strToLower_endsWith_rpm (f : String) (h : strEndsWith f ".rpm" = true) :
    strEndsWith (strToLower f) ".rpm" = true := by
  unfold strEndsWith at h ⊢
  have h2 := leadsChars_map toLowerChar _ _ h
  have hfix : (".rpm".data.reverse).map toLowerChar = ".rpm".data.reverse := by decide
  rw [hfix] at h2
  have hmap : (f.data.reverse).map toLowerChar = (f.data.map toLowerChar).reverse := by
    rw [List.map_reverse]
  rw [hmap] at h2
  exact h2

/-- Claim C8: through the service layer, an upload into an RPM-typed
    repository with a filename lacking the .rpm suffix always fails
    (in the service's extension gate or the repo's own check) and
    leaves the storage untouched, while a filename ending in .rpm is
    stored under repoName/Packages/filename. -/
theorem c8_rpm_upload_extension_gate (env : SvcEnv) (st : SvcState) (n f : String)
    (data : List Nat) (hmem : memoLookup st.repoTypes n = some RepoType.rpm)
    (hreg : RepoType.rpm ∈ env.order) :
    (strEndsWith f ".rpm" = false →
      (∃ e, (svcUploadPackage env st n f data).1 = .error e) ∧
      (svcUploadPackage env st n f data).2.store = st.store) ∧
    (strEndsWith f ".rpm" = true →
      (svcUploadPackage env st n f data).1 = .ok () ∧
      (svcUploadPackage env st n f data).2.store =
        storeInsert st.store (pathJoin (pathJoin n "Packages") f) data) := by
  have hg : getRepoInstance env st.repoTypes n = (.ok RepoType.rpm, st.repoTypes) := by
    unfold getRepoInstance
    rw [hmem]
    simp [hreg]
  constructor
  · intro hf
    by_cases hv : strEndsWith (strToLower f) ".rpm" = true
    · have hval : validateFileType f RepoType.rpm = .ok () := by
        unfold validateFileType
        simp [hv]
      have hrepo : repoUploadPackage RepoType.rpm n f data st.store =
          .error "invalid file type, expected .rpm" := by
        show rpmUploadPackage n f data st.store = _
        unfold rpmUploadPackage
        simp [hf]
      have hres : svcUploadPackage env st n f data =
          (.error (.repoFailed "invalid file type, expected .rpm"),
            { st with repoTypes := st.repoTypes }) := by
        unfold svcUploadPackage
        rw [hg]
        simp [hval, hrepo]
      rw [hres]
      exact ⟨⟨_, rfl⟩, rfl⟩
    · have hv2 : strEndsWith (strToLower f) ".rpm" = false := by
        simpa using hv
      have hval : validateFileType f RepoType.rpm = .error (.invalidFileType .rpm) := by
        unfold validateFileType
        simp [hv2]
      have hres : svcUploadPackage env st n f data =
          (.error (.invalidFileType .rpm), { st with repoTypes := st.repoTypes }) := by
        unfold svcUploadPackage
        rw [hg]
        simp [hval]
      rw [hres]
      exact ⟨⟨_, rfl⟩, rfl⟩
  · intro hf
    have hlow := strToLower_endsWith_rpm f hf
    have hval : validateFileType f RepoType.rpm = .ok () := by
      unfold validateFileType
      simp [hlow]
    have hrepo : repoUploadPackage RepoType.rpm n f data st.store =
        .ok (storeInsert st.store (pathJoin (pathJoin n "Packages") f) data) := by
      show rpmUploadPackage n f data st.store = _
      unfold rpmUploadPackage
      simp [hf]
    have hres : svcUploadPackage env st n f data =
        (.ok (), { repoTypes := st.repoTypes,
                   store := storeInsert st.store (pathJoin (pathJoin n "Packages") f) data }) := by
      unfold svcUploadPackage
      rw [hg]
      simp [hval, hrepo]
    rw [hres]
    exact ⟨rfl, rfl⟩

/-- Witness for C8 at concrete inputs: "a.txt" is rejected with the
    store untouched, "b.rpm" lands under repo/Packages/b.rpm. -/
theorem c8_rpm_upload_extension_gate_witness :
    memoLookup c8St.repoTypes "repo" = some RepoType.rpm ∧
    strEndsWith "a.txt" ".rpm" = false ∧
    (∃ e, (svcUploadPackage c8Env c8St "repo" "a.txt" [7]).1 = .error e) ∧
    (svcUploadPackage c8Env c8St "repo" "a.txt" [7]).2.store = c8St.store ∧
    strEndsWith "b.rpm" ".rpm" = true ∧
    (svcUploadPackage c8Env c8St "repo" "b.rpm" [7]).1 = .ok () ∧
    (svcUploadPackage c8Env c8St "repo" "b.rpm" [7]).2.store =
      storeInsert c8St.store (pathJoin (pathJoin "repo" "Packages") "b.rpm") [7] := by
  have h1 := c8_rpm_upload_extension_gate c8Env c8St "repo" "a.txt" [7] rfl
    (by decide)
  have h2 := c8_rpm_upload_extension_gate c8Env c8St "repo" "b.rpm" [7] rfl
    (by decide)
  exact ⟨rfl, by decide, (h1.1 (by decide)).1, (h1.1 (by decide)).2, by decide,
    (h2.2 (by decide)).1, (h2.2 (by decide)).2⟩

theorem pickLatest_mem (fs : List MetaFileEntry) :
    ∀ f0, pickLatest f0 fs ∈ f0 :: fs := by
  induction fs with
  | nil =>
    intro f0
    simp [pickLatest]
  | cons f fs ih =>
    intro f0
    simp only [pickLatest]
    by_cases hc : f.modTime > f0.modTime
    · rw [if_pos hc]
      exact List.mem_cons_of_mem _ (ih f)
    · rw [if_neg hc]
      rcases List.mem_cons.mp (ih f0) with he | hm
      · rw [he]
        exact List.mem_cons_self _ _
      · exact List.mem_cons_of_mem _ (List.mem_cons_of_mem _ hm)

theorem pickLatest_max (fs : List MetaFileEntry) :
    ∀ f0, ∀ g ∈ f0 :: fs, ¬ (g.modTime > (pickLatest f0 fs).modTime) := by
  induction fs with
  | nil =>
    intro f0 g hg
    rcases List.mem_cons.mp hg with he | hm
    · subst he
      simp [pickLatest]
    · simp at hm
  | cons f fs ih =>
    intro f0 g hg
    simp only [pickLatest]
    by_cases hc : f.modTime > f0.modTime
    · rw [if_pos hc]
      rcases List.mem_cons.mp hg with he | hm
      · subst he
        have hf := ih f f (List.mem_cons_self _ _)
        omega
      · exact ih f g hm
    · rw [if_neg hc]
      rcases List.mem_cons.mp hg with he | hm
      · rw [he]
        exact ih f0 f0 (List.mem_cons_self _ _)
      · rcases List.mem_cons.mp hm with he2 | hm2
        · subst he2
          have hf := ih f0 f0 (List.mem_cons_self _ _)
          omega
        · exact ih f0 g (List.mem_cons_of_mem _ hm2)

theorem findLatest_eq (env : RepoMetaEnv) (r : String) (files : List MetaFileEntry)
    (hlist : env.list (pathJoin r "repodata") = some files) :
    findLatestPrimaryXMLFile env r =
      match files.filter (fun fe => isPrimaryMetaName fe.name) with
      | [] => .error .noPrimary
      | f0 :: rest => .ok (baseName (pickLatest f0 rest).name) := by
  unfold findLatestPrimaryXMLFile
  rw [hlist]

theorem rpmGet_eq (env : RepoMetaEnv) (r f : String)
    (hrpm : strEndsWith f ".rpm" = true) :
    rpmGetPackageChecksum env r f =
      match findLatestPrimaryXMLFile env r with
      | .error e => .error e
      | .ok primaryFile =>
        match env.getMeta (pathJoin (pathJoin r "repodata") primaryFile) with
        | none => .error .readFailed
        | some md =>
          match findChecksumGo md.packages (baseName f) with
          | some c => .ok c
          | none => .error .pkgNotFound := by
  unfold rpmGetPackageChecksum
  rw [hrpm]
  rfl

theorem rpmGet_eq2 (env : RepoMetaEnv) (r f chosen : String)
    (hrpm : strEndsWith f ".rpm" = true)
    (hch : findLatestPrimaryXMLFile env r = .ok chosen) :
    rpmGetPackageChecksum env r f =
      match env.getMeta (pathJoin (pathJoin r "repodata") chosen) with
      | none => .error .readFailed
      | some md =>
        match findChecksumGo md.packages (baseName f) with
        | some c => .ok c
        | none => .error .pkgNotFound := by
  rw [rpmGet_eq env r f hrpm, hch]

theorem rpmGet_eq3 (env : RepoMetaEnv) (r f chosen : String) (md : RpmMetadata)
    (hrpm : strEndsWith f ".rpm" = true)
    (hch : findLatestPrimaryXMLFile env r = .ok chosen)
    (hmeta : env.getMeta (pathJoin (pathJoin r "repodata") chosen) = some md) :
    rpmGetPackageChecksum env r f =
      match findChecksumGo md.packages (baseName f) with
      | some c => .ok c
      | none => .error .pkgNotFound := by
  rw [rpmGet_eq2 env r f chosen hrpm hch, hmeta]

theorem findChecksumGo_some (ps : List RpmPkg) (target c : String)
    (h : findChecksumGo ps target = some c) :
    ∃ p ∈ ps, baseName p.locationHref = target ∧
      p.checksumType = "sha256" ∧ p.checksumValue = c := by
  induction ps with
  | nil => simp [findChecksumGo] at h
  | cons p ps ih =>
    simp only [findChecksumGo] at h
    by_cases h1 : baseName p.locationHref = target
    · rw [if_pos h1] at h
      by_cases h2 : p.checksumType = "sha256"
      · rw [if_pos h2] at h
        cases h
        exact ⟨p, List.mem_cons_self _ _, h1, h2, rfl⟩
      · rw [if_neg h2] at h
        obtain ⟨q, hq, h3, h4, h5⟩ := ih h
        exact ⟨q, List.mem_cons_of_mem _ hq, h3, h4, h5⟩
    · rw [if_neg h1] at h
      obtain ⟨q, hq, h3, h4, h5⟩ := ih h
      exact ⟨q, List.mem_cons_of_mem _ hq, h3, h4, h5⟩

theorem findChecksumGo_none (ps : List RpmPkg) (target : String)
    (h : ∀ p ∈ ps, ¬ (baseName p.locationHref = target)) :
    findChecksumGo ps target = none := by
  induction ps with
  | nil => simp [findChecksumGo]
  | cons p ps ih =>
    simp only [findChecksumGo]
    rw [if_neg (h p (List.mem_cons_self _ _))]
    exact ih (fun q hq => h q (List.mem_cons_of_mem _ hq))

/-- Claim C3: GetPackageChecksum on an RPM repo reads the
    most-recently-modified primary.xml.gz under repodata (by ModTime),
    returns the sha256 checksum of the entry whose location href
    basename matches the requested filename's basename, and fails with
    a not-found style error both when no primary metadata file exists
    and when no entry matches. -/
theorem c3_rpm_checksum_from_latest_primary (env : RepoMetaEnv) (r f : String)
    (hrpm : strEndsWith f ".rpm" = true) (files : List MetaFileEntry)
    (hlist : env.list (pathJoin r "repodata") = some files) :
    ((∀ fe ∈ files, isPrimaryMetaName fe.name = false) →
      rpmGetPackageChecksum env r f = .error .noPrimary) ∧
    (∀ chosen, findLatestPrimaryXMLFile env r = .ok chosen →
      ∃ fe ∈ files, isPrimaryMetaName fe.name = true ∧ chosen = baseName fe.name ∧
        ∀ fe2 ∈ files, isPrimaryMetaName fe2.name = true →
          ¬ (fe2.modTime > fe.modTime)) ∧
    (∀ chosen md, findLatestPrimaryXMLFile env r = .ok chosen →
      env.getMeta (pathJoin (pathJoin r "repodata") chosen) = some md →
      ((∀ p ∈ md.packages, ¬ (baseName p.locationHref = baseName f)) →
        rpmGetPackageChecksum env r f = .error .pkgNotFound) ∧
      (∀ c, findChecksumGo md.packages (baseName f) = some c →
        rpmGetPackageChecksum env r f = .ok c ∧
        ∃ p ∈ md.packages, baseName p.locationHref = baseName f ∧
          p.checksumType = "sha256" ∧ p.checksumValue = c)) := by
  refine ⟨?_, ?_, ?_⟩
  · intro hnone
    have hfilter : files.filter (fun fe => isPrimaryMetaName fe.name) = [] := by
      rw [List.filter_eq_nil]
      intro fe hfe
      simp [hnone fe hfe]
    have hfl : findLatestPrimaryXMLFile env r = .error .noPrimary := by
      rw [findLatest_eq env r files hlist, hfilter]
    rw [rpmGet_eq env r f hrpm, hfl]
  · intro chosen hch
    rw [findLatest_eq env r files hlist] at hch
    cases hfilter : files.filter (fun fe => isPrimaryMetaName fe.name) with
    | nil =>
      rw [hfilter] at hch
      exact Except.noConfusion hch
    | cons f0 rest =>
      rw [hfilter] at hch
      have hch2 : chosen = baseName (pickLatest f0 rest).name :=
        (Except.ok.inj hch).symm
      refine ⟨pickLatest f0 rest, ?_, ?_, hch2, ?_⟩
      · have hm := pickLatest_mem rest f0
        rw [← hfilter] at hm
        exact (List.mem_filter.mp hm).1
      · have hm := pickLatest_mem rest f0
        rw [← hfilter] at hm
        exact (List.mem_filter.mp hm).2
      · intro fe2 hfe2 hp2
        have hmem : fe2 ∈ f0 :: rest := by
          rw [← hfilter]
          exact List.mem_filter.mpr ⟨hfe2, hp2⟩
        exact pickLatest_max rest f0 fe2 hmem
  · intro chosen md hch hmeta
    constructor
    · intro hnomatch
      have hfind : findChecksumGo md.packages (baseName f) = none :=
        findChecksumGo_none md.packages (baseName f) hnomatch
      rw [rpmGet_eq3 env r f chosen md hrpm hch hmeta, hfind]
    · intro c hc
      refine ⟨?_, findChecksumGo_some md.packages (baseName f) c hc⟩
      rw [rpmGet_eq3 env r f chosen md hrpm hch hmeta, hc]

/-- Witness for C3 at a concrete environment: among two primary files
    the later-modified one is parsed and the sha256 checksum of
    foo-1.0.rpm is returned. -/
theorem c3_rpm_checksum_from_latest_primary_witness :
    strEndsWith "foo-1.0.rpm" ".rpm" = true ∧
    findLatestPrimaryXMLFile c3Env "repo" = .ok "new-primary.xml.gz" ∧
    rpmGetPackageChecksum c3Env "repo" "foo-1.0.rpm" = .ok "cafe" := by
  have h := c3_rpm_checksum_from_latest_primary c3Env "repo" "foo-1.0.rpm"
    (by decide)
    [⟨"old-primary.xml.gz", 3⟩, ⟨"new-primary.xml.gz", 5⟩, ⟨"repomd.xml", 9⟩]
    rfl
  refine ⟨by decide, rfl, ?_⟩
  exact ((h.2.2 "new-primary.xml.gz" c3Md rfl rfl).2 "cafe" rfl).1

theorem findByLabel_none (reg : StorageRegistry) (label : String)
    (h : findByLabel reg label = none) : ∀ e ∈ reg, ¬ label ∈ e.labels := by
  induction reg with
  | nil => simp
  | cons e0 rest ih =>
    simp only [findByLabel] at h
    by_cases hl : label ∈ e0.labels
    · rw [if_pos hl] at h
      exact Option.noConfusion h
    · rw [if_neg hl] at h
      intro e he
      rcases List.mem_cons.mp he with he0 | hrest
      · subst he0
        exact hl
      · exact ih h e hrest

theorem findByLabel_some (reg : StorageRegistry) (label : String)
    (e : StorageEntry) (h : findByLabel reg label = some e) :
    e ∈ reg ∧ label ∈ e.labels := by
  induction reg with
  | nil => simp [findByLabel] at h
  | cons e0 rest ih =>
    simp only [findByLabel] at h
    by_cases hl : label ∈ e0.labels
    · rw [if_pos hl] at h
      cases h
      exact ⟨List.mem_cons_self _ _, hl⟩
    · rw [if_neg hl] at h
      obtain ⟨hm, hl2⟩ := ih h
      exact ⟨List.mem_cons_of_mem _ hm, hl2⟩

theorem findByType_none (reg : StorageRegistry) (st : String)
    (h : findByType reg st = none) : ∀ e ∈ reg, e.stype ≠ st := by
  induction reg with
  | nil => simp
  | cons e0 rest ih =>
    simp only [findByType] at h
    by_cases hl : e0.stype = st
    · rw [if_pos hl] at h
      exact Option.noConfusion h
    · rw [if_neg hl] at h
      intro e he
      rcases List.mem_cons.mp he with he0 | hrest
      · subst he0
        exact hl
      · exact ih h e hrest

theorem findByType_some (reg : StorageRegistry) (st : String)
    (e : StorageEntry) (h : findByType reg st = some e) :
    e ∈ reg ∧ e.stype = st := by
  induction reg with
  | nil => simp [findByType] at h
  | cons e0 rest ih =>
    simp only [findByType] at h
    by_cases hl : e0.stype = st
    · rw [if_pos hl] at h
      cases h
      exact ⟨List.mem_cons_self _ _, hl⟩
    · rw [if_neg hl] at h
      obtain ⟨hm, hl2⟩ := ih h
      exact ⟨List.mem_cons_of_mem _ hm, hl2⟩

/-- Claim C6: CreateByLable constructs via the (first) registered
    constructor whose label set contains the label; when no label
    matches it constructs the registered "local" storage instead of
    failing, and the label-not-found error is returned only when no
    "local" constructor is registered either. -/
theorem c6_createByLabel_fallback_local (reg : StorageRegistry) (path label : String) :
    (∀ e, findByLabel reg label = some e →
      CreateByLable reg path label = e.make path ∧ e ∈ reg ∧ label ∈ e.labels) ∧
    (findByLabel reg label = none →
      (∀ e ∈ reg, ¬ label ∈ e.labels) ∧
      (∀ e, findByType reg "local" = some e →
        CreateByLable reg path label = e.make path ∧ e ∈ reg ∧ e.stype = "local") ∧
      (findByType reg "local" = none →
        (∀ e ∈ reg, e.stype ≠ "local") ∧
        CreateByLable reg path label = .error "label and storage not fount")) := by
  constructor
  · intro e he
    obtain ⟨hm, hl⟩ := findByLabel_some reg label e he
    refine ⟨?_, hm, hl⟩
    unfold CreateByLable
    rw [he]
  · intro hn
    refine ⟨findByLabel_none reg label hn, ?_, ?_⟩
    · intro e he
      obtain ⟨hm, ht⟩ := findByType_some reg "local" e he
      refine ⟨?_, hm, ht⟩
      unfold CreateByLable
      rw [hn, he]
    · intro hloc
      refine ⟨findByType_none reg "local" hloc, ?_⟩
      unfold CreateByLable
      rw [hn, hloc]

/-- Witness for C6 on the registry shape the program builds (local
    labelled rpm/deb, the object store labelled files): a matching
    label picks its constructor, an unknown label falls back to
    local. -/
theorem c6_createByLabel_fallback_local_witness :
    CreateByLable demoRegistry "/data" "files" = .ok "s3:/data" ∧
    findByLabel demoRegistry "bogus" = none ∧
    CreateByLable demoRegistry "/data" "bogus" = .ok "local:/data" := by
  refine ⟨?_, rfl, ?_⟩
  · have h := (c6_createByLabel_fallback_local demoRegistry "/data" "files").1
      ⟨"s3", ["files"], fun p => .ok ("s3:" ++ p)⟩ rfl
    exact h.1
  · have h := ((c6_createByLabel_fallback_local demoRegistry "/data" "bogus").2 rfl).2.1
      ⟨"local", ["rpm", "deb"], fun p => .ok ("local:" ++ p)⟩ rfl
    exact h.1

theorem filesListReposGo_mem (store : TextStore) (ds : List FilesDirEntry)
    (acc : List String) (x : String) :
    x ∈ filesListReposGo store ds acc ↔
      x ∈ acc ∨ ∃ d ∈ ds, d.name = x ∧
        (d.isRepo = true ∨ hasRepoTypeMarker store d.name "files" = true) := by
  induction ds generalizing acc with
  | nil => simp [filesListReposGo]
  | cons d ds ih =>
    simp only [filesListReposGo]
    by_cases hc : (d.isRepo || hasRepoTypeMarker store d.name "files") = true
    · rw [if_pos hc, ih]
      have hc2 := Bool.or_eq_true _ _ ▸ hc
      have hacc : x ∈ (if d.name ∈ acc then acc else acc ++ [d.name]) ↔
          x ∈ acc ∨ x = d.name := by
        by_cases hd : d.name ∈ acc
        · rw [if_pos hd]
          constructor
          · exact Or.inl
          · rintro (h | h)
            · exact h
            · exact h ▸ hd
        · rw [if_neg hd]
          simp [List.mem_append]
      rw [hacc]
      constructor
      · rintro ((h | h) | ⟨d2, hd2, hn, hrep⟩)
        · exact Or.inl h
        · exact Or.inr ⟨d, List.mem_cons_self _ _, h.symm, hc2⟩
        · exact Or.inr ⟨d2, List.mem_cons_of_mem _ hd2, hn, hrep⟩
      · rintro (h | ⟨d2, hd2, hn, hrep⟩)
        · exact Or.inl (Or.inl h)
        · rcases List.mem_cons.mp hd2 with he | hm
          · subst he
            exact Or.inl (Or.inr hn.symm)
          · exact Or.inr ⟨d2, hm, hn, hrep⟩
    · rw [if_neg hc, ih]
      have hc2 : d.isRepo = false ∧ hasRepoTypeMarker store d.name "files" = false := by
        constructor
        · cases hb : d.isRepo
          · rfl
          · exact absurd (by rw [hb]; simp) hc
        · cases hb : hasRepoTypeMarker store d.name "files"
          · rfl
          · exact absurd (by rw [hb]; simp) hc
      constructor
      · rintro (h | ⟨d2, hd2, hn, hrep⟩)
        · exact Or.inl h
        · exact Or.inr ⟨d2, List.mem_cons_of_mem _ hd2, hn, hrep⟩
      · rintro (h | ⟨d2, hd2, hn, hrep⟩)
        · exact Or.inl h
        · rcases List.mem_cons.mp hd2 with he | hm
          · subst he
            rcases hrep with h2 | h2
            · rw [hc2.1] at h2
              exact Bool.noConfusion h2
            · rw [hc2.2] at h2
              exact Bool.noConfusion h2
          · exact Or.inr ⟨d2, hm, hn, hrep⟩

/-- Claim C9: FilesRepo.CreateRepo succeeds whenever the repository
    directory is created, even when the .repo-type marker write fails
    (that error is discarded); consequently the created repository can
    lack the marker and is then invisible to FilesRepo.ListRepos unless
    the storage walk itself flags the directory as a repo. -/
theorem c9_files_create_swallows_marker_error (env : FilesEnv) (store : TextStore)
    (n : String)
    (hdir : env.createDirOk n = true)
    (hstore : env.storeOk (pathJoin n ".repo-type") = false)
    (habsent : textLookup store (pathJoin n ".repo-type") = none)
    (hplain : ∀ d ∈ env.dirs, d.name = n → d.isRepo = false) :
    filesCreateRepo env store n = .ok store ∧
    hasRepoTypeMarker store n "files" = false ∧
    ¬ n ∈ filesListRepos env store := by
  refine ⟨?_, ?_, ?_⟩
  · unfold filesCreateRepo
    rw [hdir, hstore]
    rfl
  · unfold hasRepoTypeMarker
    rw [habsent]
  · unfold filesListRepos
    rw [filesListReposGo_mem]
    rintro (h | ⟨d, hd, hn, hrep⟩)
    · simp at h
    · rcases hrep with h2 | h2
      · rw [hplain d hd hn] at h2
        exact Bool.noConfusion h2
      · rw [hn] at h2
        unfold hasRepoTypeMarker at h2
        rw [habsent] at h2
        exact Bool.noConfusion h2

/-- Witness for C9 at a concrete environment: the marker write fails,
    CreateRepo still succeeds, and the new repository is missing from
    ListRepos. -/
theorem c9_files_create_swallows_marker_error_witness :
    c9Env.createDirOk "blob" = true ∧
    c9Env.storeOk (pathJoin "blob" ".repo-type") = false ∧
    filesCreateRepo c9Env [] "blob" = .ok [] ∧
    ¬ "blob" ∈ filesListRepos c9Env [] := by
  have h := c9_files_create_swallows_marker_error c9Env [] "blob" rfl rfl rfl
    (by intro d hd hn; simp [c9Env] at hd; rw [hd])
  exact ⟨rfl, rfl, h.1, h.2.2⟩

/-- Claim C1 fails on the code: under the storage root "data" the
    symlink "evil" resolves to the file "secret" outside the root
    (leadsPath base target = false), yet Get serves that file's
    content, Exists reports true, and ListWithOptions lists the entry —
    the containment guard resolvePath exists in the source but is never
    called by any of the three operations.  The dangling-symlink half
    of the claim does hold: "dang" reads as not-found everywhere. -/
theorem c1_get_exists_list_follow_escaped_symlink :
    evalSymlinks c1Root ["data", "evil"] = some ["secret"] ∧
    leadsPath ["data"] ["secret"] = false ∧
    localGet c1Root ["data"] ["evil"] = some (FSNode.file [42]) ∧
    localExists c1Root ["data"] ["evil"] = true ∧
    localListWithOptions c1Root ["data"] [] ⟨-1, false, []⟩ =
      [⟨["evil"], 1, false, false⟩] ∧
    localGet c1Root ["data"] ["dang"] = none ∧
    localExists c1Root ["data"] ["dang"] = false := by
  refine ⟨rfl, rfl, rfl, rfl, rfl, rfl, rfl⟩

/-- Claim C10: for every prefix path that does not exist under the
    local storage root (os.Stat not-exist, including dangling
    symlinks), ListWithOptions returns an empty list and a nil error,
    for every combination of options. -/
theorem c10_list_missing_prefix_empty (root : FSNode) (base pfx : List String)
    (opts : ListOptions) (h : osStat root (base ++ pfx) = none) :
    localListWithOptions root base pfx opts = [] := by
  unfold localListWithOptions
  rw [h]

/-- Witness for C10: a missing prefix under an existing root lists as
    empty for two different option combinations, and so does a dangling
    symlink prefix. -/
theorem c10_list_missing_prefix_empty_witness :
    osStat c1Root ["data", "missing"] = none ∧
    localListWithOptions c1Root ["data"] ["missing"] ⟨-1, true, []⟩ = [] ∧
    localListWithOptions c1Root ["data"] ["missing"] ⟨2, false, [".rpm"]⟩ = [] ∧
    osStat c1Root ["data", "dang"] = none ∧
    localListWithOptions c1Root ["data"] ["dang"] ⟨-1, true, []⟩ = [] := by
  refine ⟨rfl, ?_, ?_, rfl, ?_⟩
  · exact c10_list_missing_prefix_empty c1Root ["data"] ["missing"] ⟨-1, true, []⟩ rfl
  · exact c10_list_missing_prefix_empty c1Root ["data"] ["missing"] ⟨2, false, [".rpm"]⟩ rfl
  · exact c10_list_missing_prefix_empty c1Root ["data"] ["dang"] ⟨-1, true, []⟩ rfl

end Plus
